import Mathlib

/-!
Verification of the sendgrid-rs client library (`src/sg_client.rs`): the
message-to-form-body encoder `make_post_body`, the bracket-key helper
`make_form_key`, and the thin `SGClient.send` orchestration.

The repository ships only `sg_client.rs`; the `Mail` model (`mail.rs`) and
the error type (`errors.rs`) are modelled from the specification, as is the
`url` crate's `form_urlencoded::Serializer` dependency (its byte-level
behaviour is pinned by the specification's exact expected output strings).
-/

/-- Modelled from the spec: `errors.rs` is not in the repository sources.
The spec's error taxonomy has `EncodingError` (header-mapping serialization
failed) and `TransportError` (underlying HTTP call failed). -/
inductive SendgridError where
  | encodingError : SendgridError
  | transportError : SendgridError
deriving DecidableEq

/-- Result alias mirroring `SendgridResult<T> = Result<T, SendgridError>`. -/
abbrev SendgridResult (α : Type) : Type := Except SendgridError α

/-! ### The form-urlencoded serializer (the `url` crate dependency)

Modelled from the spec: the `url` crate is a dependency, not repository
code.  Per the spec, every key/value is percent-encoded by the standard
form-urlencoded rules: space becomes `+`, ASCII alphanumerics and `*-._`
pass unchanged, every other byte of the UTF-8 encoding becomes `%XX` with
uppercase hex; pairs are joined with `&`, key and value with `=`. -/

/-- Bytes that the form-urlencoded serializer leaves unchanged:
ASCII alphanumerics and `*`, `-`, `.`, `_`. -/
def byteSerializedUnchanged (b : Nat) : Bool :=
  (0x30 ≤ b && b ≤ 0x39) || (0x41 ≤ b && b ≤ 0x5A) || (0x61 ≤ b && b ≤ 0x7A) ||
    b == 0x2A || b == 0x2D || b == 0x2E || b == 0x5F

/-- Uppercase hexadecimal digit for a value below 16. -/
def upperHexDigit (n : Nat) : Char :=
  if n < 10 then Char.ofNat (0x30 + n) else Char.ofNat (0x37 + n)

/-- Serialize one byte of the UTF-8 stream: unchanged bytes pass through,
space becomes `+`, everything else is percent-encoded in uppercase hex. -/
def serializeByteChars (b : Nat) : List Char :=
  if byteSerializedUnchanged b then [Char.ofNat b]
  else if b == 0x20 then ['+']
  else ['%', upperHexDigit (b / 16), upperHexDigit (b % 16)]

/-- UTF-8 byte sequence of one character (standard UTF-8 encoding). -/
def utf8Bytes (c : Char) : List Nat :=
  let n := c.toNat
  if n < 0x80 then [n]
  else if n < 0x800 then [0xC0 + n / 0x40, 0x80 + n % 0x40]
  else if n < 0x10000 then
    [0xE0 + n / 0x1000, 0x80 + n / 0x40 % 0x40, 0x80 + n % 0x40]
  else
    [0xF0 + n / 0x40000, 0x80 + n / 0x1000 % 0x40, 0x80 + n / 0x40 % 0x40,
      0x80 + n % 0x40]

/-- Percent-encode a character sequence byte by byte. -/
def byteSerializeChars (l : List Char) : List Char :=
  (((l.map utf8Bytes).flatten).map serializeByteChars).flatten

/-- Percent-encode a string for a form-urlencoded body. -/
def byteSerialize (s : String) : String :=
  String.mk (byteSerializeChars s.data)

/-- One encoded `key=value` unit of the form body. -/
def encodePair (p : String × String) : String :=
  byteSerialize p.1 ++ "=" ++ byteSerialize p.2

/-- The serializer's `append_pair`: push a `&` separator when the
accumulated body is non-empty, then the encoded key, `=`, encoded value. -/
def appendPair (ser : String) (key value : String) : String :=
  (if ser.isEmpty then ser else ser ++ "&") ++
    byteSerialize key ++ "=" ++ byteSerialize value

/-- Running a sequence of `append_pair` calls on a fresh serializer over an
empty initial body, then `finish`. -/
def serializerFinish (pairs : List (String × String)) : String :=
  pairs.foldl (fun acc p => appendPair acc p.1 p.2) ""

/-! ### The Mail model (`mail.rs`, absent from the sources) -/

/-- Modelled from the spec: `mail.rs` is not in the repository sources.
One outbound email: ordered recipient sequences, scalar fields, and the
attachment/content/header mappings.  The spec fixes mapping keys as unique
with a deterministic order within one encode call, so mappings are
modelled as insertion-ordered association lists. -/
structure Mail where
  «to» : List String
  to_names : List String
  cc : List String
  bcc : List String
  «from» : String
  subject : String
  html : String
  text : String
  from_name : String
  reply_to : String
  date : String
  attachments : List (String × String)
  content : List (String × String)
  headers : List (String × String)
  x_smtpapi : String

/-- Modelled from the spec: a Mail is constructed empty. -/
def Mail.new : Mail :=
  ⟨[], [], [], [], "", "", "", "", "", "", "", [], [], [], ""⟩

/-- Modelled from the spec: append one recipient address. -/
def Mail.add_to (m : Mail) (addr : String) : Mail :=
  { m with «to» := m.«to» ++ [addr] }

/-- Modelled from the spec: set the sender address. -/
def Mail.add_from (m : Mail) (addr : String) : Mail :=
  { m with «from» := addr }

/-- Modelled from the spec: set the subject. -/
def Mail.add_subject (m : Mail) (s : String) : Mail :=
  { m with subject := s }

/-- Modelled from the spec: set the plain-text body. -/
def Mail.add_text (m : Mail) (s : String) : Mail :=
  { m with text := s }

/-- Lowercase hexadecimal digit for a value below 16. -/
def lowerHexDigit (n : Nat) : Char :=
  if n < 10 then Char.ofNat (0x30 + n) else Char.ofNat (0x57 + n)

/-- JSON escaping for one character of a header name or value: quote and
backslash are escaped, control characters become `\u00XX`. -/
def jsonEscapeChar (c : Char) : List Char :=
  if c = '"' then ['\\', '"']
  else if c = '\\' then ['\\', '\\']
  else if c.toNat < 0x20 then
    ['\\', 'u', '0', '0', lowerHexDigit (c.toNat / 16), lowerHexDigit (c.toNat % 16)]
  else [c]

/-- JSON string literal rendering of a text value. -/
def jsonStringLit (s : String) : String :=
  "\"" ++ String.mk ((s.data.map jsonEscapeChar).flatten) ++ "\""

/-- JSON-object text rendering of the header mapping; the two-character
empty-object text when the mapping is empty. -/
def headerJsonString (hs : List (String × String)) : String :=
  "\x7b" ++
    String.intercalate ","
      (hs.map (fun p => jsonStringLit p.1 ++ ":" ++ jsonStringLit p.2)) ++
    "\x7d"

/-- Modelled from the spec: `mail.rs` is not in the repository sources.
The derived header-string operation renders the header mapping as
JSON-object text (`\x7b\x7d` when empty).  Per the spec it fails with an
`EncodingError` only when a header value cannot be represented as valid
text; every value of the model is valid text, so here it always succeeds. -/
def Mail.make_header_string (m : Mail) : SendgridResult String :=
  Except.ok (headerJsonString m.headers)

/-! ### The encoder (`sg_client.rs`) -/

-- Given a form value and a key, generate the correct key.
def make_form_key (form : String) (key : String) : String :=
  let value := ""
  let value := value ++ form
  let value := value.push '['
  let value := value ++ key
  let value := value.push ']'
  value

/-- The key/value pairs appended to the serializer by `make_post_body`, in
source order: the four `for` loops over `to`/`to_names`/`cc`/`bcc`, the two
loops over the attachment and content mappings with bracket-built keys,
then the nine scalar `append_pair` calls.  `headerString` is the value the
header-serialization call produced. -/
def mailPairs (mail_info : Mail) (headerString : String) :
    List (String × String) :=
  mail_info.«to».map (fun a => ("to[]", a)) ++
  mail_info.to_names.map (fun a => ("toname[]", a)) ++
  mail_info.cc.map (fun a => ("cc[]", a)) ++
  mail_info.bcc.map (fun a => ("bcc[]", a)) ++
  mail_info.attachments.map
    (fun p => (make_form_key "files" p.1, p.2)) ++
  mail_info.content.map
    (fun p => (make_form_key "content" p.1, p.2)) ++
  [("from", mail_info.«from»), ("subject", mail_info.subject),
    ("html", mail_info.html), ("text", mail_info.text),
    ("fromname", mail_info.from_name), ("replyto", mail_info.reply_to),
    ("date", mail_info.date), ("headers", headerString),
    ("x-smtpapi", mail_info.x_smtpapi)]

-- Use the URL form encoder to properly generate the body used in the mail
-- send request.
def make_post_body (mail_info : Mail) : SendgridResult String := do
  let headerString ← mail_info.make_header_string
  return serializerFinish (mailPairs mail_info headerString)

/-- The pair list `make_post_body` emits for a given mail (the header slot
holds the successful header serialization). -/
def emittedPairs (m : Mail) : List (String × String) :=
  mailPairs m (headerJsonString m.headers)

/-! ### Send orchestration (`SGClient`) -/

/-- This is the struct that allows you to authenticate to the SendGrid
API.  Its only field is the API key which allows you to send messages. -/
structure SGClient where
  api_key : String

/-- Makes a new SendGrid client with the specified API key. -/
def SGClient.new (key : String) : SGClient :=
  SGClient.mk key

/-- Sends a message through the SendGrid API.  The HTTP transport
(`reqwest` client, an external collaborator) is modelled as a function from
the posted body to the raw response text or a transport error; `send`
encodes the mail and delegates the encoded body to the transport. -/
def SGClient.send (transport : String → SendgridResult String)
    (_self : SGClient) (mail_info : Mail) : SendgridResult String := do
  let post_body ← make_post_body mail_info
  transport post_body

/-! ### Serializer structure lemmas -/

set_option maxRecDepth 10000

/-- Join encoded pair strings with `&` separators. -/
def joinAmp : List String → String
  | [] => ""
  | [x] => x
  | x :: y :: ys => x ++ "&" ++ joinAmp (y :: ys)

/-- Join character-list pieces with a literal `&` character. -/
def listJoinAmp : List (List Char) → List Char
  | [] => []
  | [x] => x
  | x :: y :: ys => x ++ '&' :: listJoinAmp (y :: ys)

theorem joinAmp_append_cons (a b : String) (xs : List String) :
    joinAmp ((a ++ "&" ++ b) :: xs) = a ++ "&" ++ joinAmp (b :: xs) := by
  cases xs with
  | nil => rfl
  | cons x xs => simp [joinAmp, String.append_assoc]

theorem data_joinAmp (l : List String) :
    (joinAmp l).data = listJoinAmp (l.map String.data) := by
  induction l with
  | nil => rfl
  | cons x xs ih =>
    cases xs with
    | nil => rfl
    | cons y ys =>
      simp [joinAmp, listJoinAmp, List.map_cons, String.data_append, ih,
        List.append_assoc]

theorem isEmpty_false_of_data_ne (s : String) (h : s.data ≠ []) :
    s.isEmpty = false := by
  rcases hb : s.isEmpty with _ | _
  · rfl
  · exact absurd (congrArg String.data ((String.isEmpty_iff s).mp hb)) h

theorem appendPair_of_not_isEmpty (acc k v : String) (h : acc.isEmpty = false) :
    appendPair acc k v = acc ++ "&" ++ encodePair (k, v) := by
  simp [appendPair, encodePair, h, String.append_assoc]

theorem foldl_appendPair (ps : List (String × String)) (acc : String)
    (h : acc.isEmpty = false) :
    ps.foldl (fun a p => appendPair a p.1 p.2) acc =
      joinAmp (acc :: ps.map encodePair) := by
  induction ps generalizing acc with
  | nil => rfl
  | cons p ps ih =>
    have hne : (acc ++ "&" ++ encodePair p).isEmpty = false := by
      apply isEmpty_false_of_data_ne
      simp [String.data_append]
    calc (p :: ps).foldl (fun a q => appendPair a q.1 q.2) acc
        = ps.foldl (fun a q => appendPair a q.1 q.2)
            (acc ++ "&" ++ encodePair p) := by
          simp [List.foldl_cons, appendPair_of_not_isEmpty _ _ _ h]
      _ = joinAmp ((acc ++ "&" ++ encodePair p) :: ps.map encodePair) := ih _ hne
      _ = acc ++ "&" ++ joinAmp (encodePair p :: ps.map encodePair) :=
          joinAmp_append_cons ..
      _ = joinAmp (acc :: (p :: ps).map encodePair) := by
          simp only [List.map_cons]
          cases ps <;> rfl

theorem encodePair_data (p : String × String) :
    (encodePair p).data =
      byteSerializeChars p.1.data ++ '=' :: byteSerializeChars p.2.data := by
  simp [encodePair, byteSerialize, String.data_append]

theorem serializerFinish_eq_joinAmp (pairs : List (String × String)) :
    serializerFinish pairs = joinAmp (pairs.map encodePair) := by
  cases pairs with
  | nil => rfl
  | cons p ps =>
    have h1 : appendPair "" p.1 p.2 = encodePair p := by
      simp [appendPair, encodePair, String.isEmpty]
    have hne : (encodePair p).isEmpty = false := by
      apply isEmpty_false_of_data_ne
      simp [encodePair_data]
    calc serializerFinish (p :: ps)
        = ps.foldl (fun a q => appendPair a q.1 q.2) (encodePair p) := by
          simp [serializerFinish, List.foldl_cons, h1]
      _ = joinAmp (encodePair p :: ps.map encodePair) := foldl_appendPair _ _ hne
      _ = joinAmp ((p :: ps).map encodePair) := by simp

theorem make_post_body_eq (m : Mail) :
    make_post_body m = Except.ok (joinAmp ((emittedPairs m).map encodePair)) := by
  rw [show make_post_body m = Except.ok (serializerFinish (emittedPairs m)) from rfl,
    serializerFinish_eq_joinAmp]

/-! ### Character-set lemmas for the percent-encoder -/

theorem serializeByteChars_forbidden :
    ∀ b : Nat, b < 256 → ∀ c ∈ serializeByteChars b,
      c ≠ '&' ∧ c ≠ '=' ∧ c ≠ '[' ∧ c ≠ ']' := by decide

theorem char_toNat_lt (c : Char) : c.toNat < 0x110000 := by
  have he : c.toNat = c.val.toNat := rfl
  rcases c.valid with h | ⟨_, h⟩ <;> (rw [he]; omega)

theorem utf8Bytes_lt (c : Char) : ∀ b ∈ utf8Bytes c, b < 256 := by
  have h := char_toNat_lt c
  intro b hb
  simp only [utf8Bytes] at hb
  split at hb
  · simp at hb; omega
  · split at hb
    · simp at hb; rcases hb with hb | hb <;> omega
    · split at hb
      · simp at hb; rcases hb with hb | hb | hb <;> omega
      · simp at hb; rcases hb with hb | hb | hb | hb <;> omega

theorem byteSerializeChars_forbidden (l : List Char) :
    ∀ c ∈ byteSerializeChars l, c ≠ '&' ∧ c ≠ '=' ∧ c ≠ '[' ∧ c ≠ ']' := by
  intro c hc
  simp only [byteSerializeChars, List.mem_flatten, List.mem_map] at hc
  obtain ⟨_, ⟨b, hb, rfl⟩, hc⟩ := hc
  have hb' : b < 256 := by
    rcases hb with ⟨_, ⟨ch, _, rfl⟩, hb⟩
    exact utf8Bytes_lt ch b hb
  exact serializeByteChars_forbidden b hb' c hc

theorem amp_not_mem_byteSerializeChars (l : List Char) :
    '&' ∉ byteSerializeChars l :=
  fun h => ((byteSerializeChars_forbidden l '&' h).1 rfl)

theorem eq_not_mem_byteSerializeChars (l : List Char) :
    '=' ∉ byteSerializeChars l :=
  fun h => ((byteSerializeChars_forbidden l '=' h).2.1 rfl)

theorem lbracket_not_mem_byteSerializeChars (l : List Char) :
    '[' ∉ byteSerializeChars l :=
  fun h => ((byteSerializeChars_forbidden l '[' h).2.2.1 rfl)

theorem rbracket_not_mem_byteSerializeChars (l : List Char) :
    ']' ∉ byteSerializeChars l :=
  fun h => ((byteSerializeChars_forbidden l ']' h).2.2.2 rfl)

theorem amp_not_mem_encodePair_data (p : String × String) :
    '&' ∉ (encodePair p).data := by
  rw [encodePair_data]
  intro h
  rcases List.mem_append.mp h with h | h
  · exact amp_not_mem_byteSerializeChars _ h
  · rcases List.mem_cons.mp h with h | h
    · exact absurd h (by decide)
    · exact amp_not_mem_byteSerializeChars _ h

theorem count_eq_encodePair_data (p : String × String) :
    ((encodePair p).data).count '=' = 1 := by
  rw [encodePair_data, List.count_append, List.count_cons]
  rw [List.count_eq_zero.mpr (eq_not_mem_byteSerializeChars _),
    List.count_eq_zero.mpr (eq_not_mem_byteSerializeChars _)]
  rfl

/-! ### Splitting the body on the pair separator -/

/-- Split a character sequence at every `&`, the usual left-to-right
split that keeps empty segments. -/
def splitAmp : List Char → List (List Char)
  | [] => [[]]
  | x :: xs =>
    if x = '&' then [] :: splitAmp xs
    else
      match splitAmp xs with
      | [] => [[x]]
      | y :: ys => (x :: y) :: ys

theorem splitAmp_ne_nil (l : List Char) : splitAmp l ≠ [] := by
  induction l with
  | nil => simp [splitAmp]
  | cons x xs ih =>
    simp only [splitAmp]
    split
    · simp
    · cases h : splitAmp xs <;> simp

theorem splitAmp_of_not_mem (x : List Char) (h : '&' ∉ x) :
    splitAmp x = [x] := by
  induction x with
  | nil => rfl
  | cons a as ih =>
    have ha : a ≠ '&' := fun hc => h (hc ▸ List.mem_cons_self a as)
    have has : '&' ∉ as := fun hc => h (List.mem_cons_of_mem a hc)
    simp only [splitAmp, if_neg ha, ih has]

theorem splitAmp_append (x rest : List Char) (h : '&' ∉ x) :
    splitAmp (x ++ '&' :: rest) = x :: splitAmp rest := by
  induction x with
  | nil => simp [splitAmp]
  | cons a as ih =>
    have ha : a ≠ '&' := fun hc => h (hc ▸ List.mem_cons_self a as)
    have has : '&' ∉ as := fun hc => h (List.mem_cons_of_mem a hc)
    simp only [List.cons_append, splitAmp, if_neg ha, List.append_eq, ih has]

theorem splitAmp_listJoinAmp (pieces : List (List Char))
    (hne : pieces ≠ []) (h : ∀ p ∈ pieces, '&' ∉ p) :
    splitAmp (listJoinAmp pieces) = pieces := by
  induction pieces with
  | nil => exact absurd rfl hne
  | cons x xs ih =>
    cases xs with
    | nil =>
      exact splitAmp_of_not_mem x (h x (List.mem_cons_self x []))
    | cons y ys =>
      have hx : '&' ∉ x := h x (List.mem_cons_self ..)
      rw [show listJoinAmp (x :: y :: ys) = x ++ '&' :: listJoinAmp (y :: ys)
          from rfl,
        splitAmp_append x _ hx,
        ih (by simp) (fun p hp => h p (List.mem_cons_of_mem x hp))]

/-! ### Bracket-key lemmas -/

theorem make_form_key_eq (form key : String) :
    make_form_key form key = form ++ "[" ++ key ++ "]" := by
  apply String.ext
  simp [make_form_key, String.data_append, String.data_push]

theorem make_form_key_data (form key : String) :
    (make_form_key form key).data = form.data ++ '[' :: (key.data ++ [']']) := by
  simp [make_form_key, String.data_append, String.data_push]

theorem byteSerializeChars_append (a b : List Char) :
    byteSerializeChars (a ++ b) = byteSerializeChars a ++ byteSerializeChars b := by
  simp [byteSerializeChars, List.map_append, List.flatten_append]

theorem files_key_data (k : String) :
    (make_form_key "files" k).data =
      'f' :: 'i' :: ('l' :: 'e' :: 's' :: '[' :: (k.data ++ [']'])) := by
  rw [make_form_key_data]; rfl

theorem content_key_data (k : String) :
    (make_form_key "content" k).data =
      'c' :: 'o' :: ('n' :: 't' :: 'e' :: 'n' :: 't' :: '[' :: (k.data ++ [']'])) := by
  rw [make_form_key_data]; rfl

theorem head2_ne {c1 c2 : Char} {rest d : List Char}
    (h : d.take 2 ≠ [c1, c2]) : c1 :: c2 :: rest ≠ d :=
  fun hc => h (by rw [← hc]; rfl)

theorem files_key_ne (k s : String) (hs : s.data.take 2 ≠ ['f', 'i']) :
    make_form_key "files" k ≠ s := by
  intro h
  exact head2_ne hs (files_key_data k ▸ congrArg String.data h)

theorem content_key_ne (k s : String) (hs : s.data.take 2 ≠ ['c', 'o']) :
    make_form_key "content" k ≠ s := by
  intro h
  exact head2_ne hs (content_key_data k ▸ congrArg String.data h)

theorem content_key_ne_files_key (c k : String) :
    make_form_key "content" c ≠ make_form_key "files" k := by
  intro h
  have hd := congrArg String.data h
  rw [content_key_data, files_key_data] at hd
  simp at hd

theorem files_key_inj (a k : String) :
    (make_form_key "files" a = make_form_key "files" k) ↔ a = k := by
  constructor
  · intro h
    have hd := congrArg String.data h
    rw [files_key_data, files_key_data] at hd
    simp only [List.cons.injEq] at hd
    exact String.ext (List.append_cancel_right hd.2.2.2.2.2.2)
  · intro h; rw [h]

theorem content_key_inj (a k : String) :
    (make_form_key "content" a = make_form_key "content" k) ↔ a = k := by
  constructor
  · intro h
    have hd := congrArg String.data h
    rw [content_key_data, content_key_data] at hd
    simp only [List.cons.injEq] at hd
    exact String.ext (List.append_cancel_right hd.2.2.2.2.2.2.2.2)
  · intro h; rw [h]

theorem filter_key_single {l : List (String × String)}
    (hn : (l.map Prod.fst).Nodup) (k : String) (v : String)
    (h : (k, v) ∈ l) : l.filter (fun a => a.1 == k) = [(k, v)] := by
  induction l with
  | nil => cases h
  | cons x xs ih =>
    rcases List.mem_cons.mp h with h | h
    · subst h
      have hk : k ∉ xs.map Prod.fst := (List.nodup_cons.mp hn).1
      have : xs.filter (fun a => a.1 == k) = [] := by
        rw [List.filter_eq_nil_iff]
        intro a ha hq
        exact hk (beq_iff_eq.mp hq ▸ List.mem_map_of_mem Prod.fst ha)
      simp [List.filter_cons, this]
    · have hx : x.1 ≠ k := by
        intro he
        exact (List.nodup_cons.mp hn).1
          (he ▸ List.mem_map_of_mem Prod.fst h)
      have := ih (List.nodup_cons.mp hn).2 h
      simp [List.filter_cons, hx, this]

/-! ### Claim theorems -/

/-- C1: for every Mail, `make_post_body` succeeds with the `&`-joined,
percent-encoded key/value pairs in exactly this order: one `to[]` pair per
entry of `to`, then `toname[]` pairs, then `cc[]`, then `bcc[]`, then one
bracket-keyed `files[<filename>]` pair per attachment, then one
bracket-keyed `content[<id>]` pair per content entry, then the scalar keys
`from`, `subject`, `html`, `text`, `fromname`, `replyto`, `date` in that
order (each present even when empty), then `headers` with the serialized
header mapping, then `x-smtpapi`. -/
theorem claim_C1_emission_order (m : Mail) :
    make_post_body m = Except.ok (joinAmp ((
      m.«to».map (fun a => ("to[]", a)) ++
      m.to_names.map (fun a => ("toname[]", a)) ++
      m.cc.map (fun a => ("cc[]", a)) ++
      m.bcc.map (fun a => ("bcc[]", a)) ++
      m.attachments.map (fun p => (make_form_key "files" p.1, p.2)) ++
      m.content.map (fun p => (make_form_key "content" p.1, p.2)) ++
      [("from", m.«from»), ("subject", m.subject), ("html", m.html),
        ("text", m.text), ("fromname", m.from_name),
        ("replyto", m.reply_to), ("date", m.date),
        ("headers", headerJsonString m.headers),
        ("x-smtpapi", m.x_smtpapi)]).map encodePair)) :=
  make_post_body_eq m

/-- C2: for a Mail with exactly one `to` address `test@example.com`, from
`me@example.com`, subject `Test`, text body `It works`, and every other
field default, `make_post_body` returns Ok of exactly the reference body
string. -/
theorem claim_C2_basic_message_body :
    make_post_body ((((Mail.new.add_to "test@example.com").add_from
        "me@example.com").add_subject "Test").add_text "It works") =
      Except.ok "to%5B%5D=test%40example.com&from=me%40example.com&subject=Test&html=&text=It+works&fromname=&replyto=&date=&headers=%7B%7D&x-smtpapi=" := by
  rfl

/-- C3: `make_form_key form key` is exactly the concatenation of `form`,
a literal opening bracket, `key`, and a literal closing bracket, with no
escaping; and once such a key is placed into the form body by the encoder
the brackets appear percent-encoded as `%5B`/`%5D` and never literally. -/
theorem claim_C3_bracket_keys (form key : String) :
    make_form_key form key = form ++ "[" ++ key ++ "]" ∧
    byteSerialize (make_form_key form key) =
      byteSerialize form ++ "%5B" ++ byteSerialize key ++ "%5D" ∧
    '[' ∉ (byteSerialize (make_form_key form key)).data ∧
    ']' ∉ (byteSerialize (make_form_key form key)).data := by
  refine ⟨make_form_key_eq form key, ?_, ?_, ?_⟩
  · apply String.ext
    simp only [byteSerialize, make_form_key_data, String.data_append]
    rw [show '[' :: (key.data ++ [']']) = ['['] ++ key.data ++ [']'] from rfl]
    simp only [← List.append_assoc, byteSerializeChars_append]
    rfl
  · exact lbracket_not_mem_byteSerializeChars _
  · exact rbracket_not_mem_byteSerializeChars _

/-- C3 witness: the spec's concrete instance, `files`/`test.jpg` gives the
literal key `files[test.jpg]`, whose encoded form carries `%5B`/`%5D`. -/
theorem claim_C3_witness :
    make_form_key "files" "test.jpg" = "files[test.jpg]" ∧
    byteSerialize (make_form_key "files" "test.jpg") =
      "files%5Btest.jpg%5D" := by
  have h := claim_C3_bracket_keys "files" "test.jpg"
  exact ⟨h.1.trans rfl, h.2.1.trans rfl⟩

/-- C4: `make_post_body` fails exactly when the header serialization
fails, propagating that same error; whenever header serialization
succeeds the encoding succeeds with the full body (no partial body
exists: the result is either the error or one complete string). -/
theorem claim_C4_error_propagation (m : Mail) :
    (∀ e, make_post_body m = Except.error e ↔
      m.make_header_string = Except.error e) ∧
    (∀ hdr, m.make_header_string = Except.ok hdr →
      make_post_body m = Except.ok (serializerFinish (mailPairs m hdr))) := by
  constructor
  · intro e
    rw [make_post_body_eq]
    constructor
    · intro h; cases h
    · intro h; cases h
  · intro hdr h
    have : hdr = headerJsonString m.headers := by
      cases h; rfl
    rw [this]
    rfl

/-- C4 witness: at the empty Mail, the header serialization succeeds with
the empty-object text and the encoding succeeds with the full body. -/
theorem claim_C4_witness :
    Mail.new.make_header_string = Except.ok "\x7b\x7d" ∧
    make_post_body Mail.new =
      Except.ok (serializerFinish (mailPairs Mail.new "\x7b\x7d")) :=
  ⟨rfl, (claim_C4_error_propagation Mail.new).2 "\x7b\x7d" rfl⟩

/-- C5: the all-default Mail emits no `to[]`/`toname[]`/`cc[]`/`bcc[]`/
`files[..]`/`content[..]` pairs; its pair list is exactly the nine scalar
keys with empty values except `headers`, whose value is the empty-object
text, and the encoded body percent-encodes that as `%7B%7D`. -/
theorem claim_C5_empty_mail :
    make_post_body Mail.new =
      Except.ok "from=&subject=&html=&text=&fromname=&replyto=&date=&headers=%7B%7D&x-smtpapi=" ∧
    emittedPairs Mail.new =
      [("from", ""), ("subject", ""), ("html", ""), ("text", ""),
        ("fromname", ""), ("replyto", ""), ("date", ""),
        ("headers", "\x7b\x7d"), ("x-smtpapi", "")] :=
  ⟨rfl, rfl⟩

/-- C7: encoding is deterministic; logically identical Mail values (equal
field contents, with the spec's insertion-ordered mappings) produce
byte-identical output on each invocation. -/
theorem claim_C7_deterministic (m1 m2 : Mail) (h : m1 = m2) :
    make_post_body m1 = make_post_body m2 := by
  rw [h]

/-- C7 witness: applied to two identical snapshots of the empty Mail. -/
theorem claim_C7_witness :
    Mail.new = Mail.new ∧ make_post_body Mail.new = make_post_body Mail.new :=
  ⟨rfl, claim_C7_deterministic Mail.new Mail.new rfl⟩

/-- C9: `send` returns exactly what the transport returned for the encoded
body (raw response text verbatim, or the transport error unchanged), and
when `make_post_body` fails, `send` returns that encoding error and the
transport is never consulted (the result does not depend on it). -/
theorem claim_C9_send_orchestration
    (transport : String → SendgridResult String) (c : SGClient) (m : Mail) :
    SGClient.send transport c m =
      match make_post_body m with
      | Except.error e => Except.error e
      | Except.ok body => transport body := by
  show make_post_body m >>= transport = _
  cases h : make_post_body m <;> simp [h, Bind.bind, Except.bind]

/-! ### Key-distinctness helpers for filtering the emitted pairs -/

theorem files_key_beq_eq_false (k s : String)
    (hs : s.data.take 2 ≠ ['f', 'i']) :
    (make_form_key "files" k == s) = false :=
  beq_eq_false_iff_ne.mpr (files_key_ne k s hs)

theorem beq_files_key_eq_false (k s : String)
    (hs : s.data.take 2 ≠ ['f', 'i']) :
    (s == make_form_key "files" k) = false :=
  beq_eq_false_iff_ne.mpr (Ne.symm (files_key_ne k s hs))

theorem content_key_beq_eq_false (k s : String)
    (hs : s.data.take 2 ≠ ['c', 'o']) :
    (make_form_key "content" k == s) = false :=
  beq_eq_false_iff_ne.mpr (content_key_ne k s hs)

theorem beq_content_key_eq_false (k s : String)
    (hs : s.data.take 2 ≠ ['c', 'o']) :
    (s == make_form_key "content" k) = false :=
  beq_eq_false_iff_ne.mpr (Ne.symm (content_key_ne k s hs))

theorem emitted_filter_to (m : Mail) :
    ((emittedPairs m).filter (fun p => p.1 == "to[]")).map Prod.snd =
      m.«to» := by
  have h5 : m.attachments.filter
      (fun p => make_form_key "files" p.1 == "to[]") = [] := by
    rw [List.filter_eq_nil_iff]
    intro a _
    simp only [files_key_beq_eq_false a.1 "to[]" (by decide)]
    exact Bool.false_ne_true
  have h6 : m.content.filter
      (fun p => make_form_key "content" p.1 == "to[]") = [] := by
    rw [List.filter_eq_nil_iff]
    intro a _
    simp only [content_key_beq_eq_false a.1 "to[]" (by decide)]
    exact Bool.false_ne_true
  simp [emittedPairs, mailPairs, List.filter_append, List.filter_map,
    Function.comp_def, h5, h6]

theorem emitted_filter_toname (m : Mail) :
    ((emittedPairs m).filter (fun p => p.1 == "toname[]")).map Prod.snd =
      m.to_names := by
  have h5 : m.attachments.filter
      (fun p => make_form_key "files" p.1 == "toname[]") = [] := by
    rw [List.filter_eq_nil_iff]
    intro a _
    simp only [files_key_beq_eq_false a.1 "toname[]" (by decide)]
    exact Bool.false_ne_true
  have h6 : m.content.filter
      (fun p => make_form_key "content" p.1 == "toname[]") = [] := by
    rw [List.filter_eq_nil_iff]
    intro a _
    simp only [content_key_beq_eq_false a.1 "toname[]" (by decide)]
    exact Bool.false_ne_true
  simp [emittedPairs, mailPairs, List.filter_append, List.filter_map,
    Function.comp_def, h5, h6]

theorem emitted_filter_cc (m : Mail) :
    ((emittedPairs m).filter (fun p => p.1 == "cc[]")).map Prod.snd =
      m.cc := by
  have h5 : m.attachments.filter
      (fun p => make_form_key "files" p.1 == "cc[]") = [] := by
    rw [List.filter_eq_nil_iff]
    intro a _
    simp only [files_key_beq_eq_false a.1 "cc[]" (by decide)]
    exact Bool.false_ne_true
  have h6 : m.content.filter
      (fun p => make_form_key "content" p.1 == "cc[]") = [] := by
    rw [List.filter_eq_nil_iff]
    intro a _
    simp only [content_key_beq_eq_false a.1 "cc[]" (by decide)]
    exact Bool.false_ne_true
  simp [emittedPairs, mailPairs, List.filter_append, List.filter_map,
    Function.comp_def, h5, h6]

theorem emitted_filter_bcc (m : Mail) :
    ((emittedPairs m).filter (fun p => p.1 == "bcc[]")).map Prod.snd =
      m.bcc := by
  have h5 : m.attachments.filter
      (fun p => make_form_key "files" p.1 == "bcc[]") = [] := by
    rw [List.filter_eq_nil_iff]
    intro a _
    simp only [files_key_beq_eq_false a.1 "bcc[]" (by decide)]
    exact Bool.false_ne_true
  have h6 : m.content.filter
      (fun p => make_form_key "content" p.1 == "bcc[]") = [] := by
    rw [List.filter_eq_nil_iff]
    intro a _
    simp only [content_key_beq_eq_false a.1 "bcc[]" (by decide)]
    exact Bool.false_ne_true
  simp [emittedPairs, mailPairs, List.filter_append, List.filter_map,
    Function.comp_def, h5, h6]

theorem emitted_filter_files (m : Mail)
    (hA : (m.attachments.map Prod.fst).Nodup) (k v : String)
    (hkv : (k, v) ∈ m.attachments) :
    (emittedPairs m).filter (fun p => p.1 == make_form_key "files" k) =
      [(make_form_key "files" k, v)] := by
  have h1 : ("to[]" == make_form_key "files" k) = false :=
    beq_files_key_eq_false k "to[]" (by decide)
  have h2 : ("toname[]" == make_form_key "files" k) = false :=
    beq_files_key_eq_false k "toname[]" (by decide)
  have h3 : ("cc[]" == make_form_key "files" k) = false :=
    beq_files_key_eq_false k "cc[]" (by decide)
  have h4 : ("bcc[]" == make_form_key "files" k) = false :=
    beq_files_key_eq_false k "bcc[]" (by decide)
  have h5 : m.attachments.filter
      (fun p => make_form_key "files" p.1 == make_form_key "files" k) =
        [(k, v)] := by
    rw [List.filter_congr (q := fun p : String × String => p.1 == k) ?_,
      filter_key_single hA k v hkv]
    intro a _
    show (make_form_key "files" a.1 == make_form_key "files" k) = (a.1 == k)
    by_cases h : a.1 = k
    · rw [h]
      simp
    · rw [beq_eq_false_iff_ne.mpr h,
        beq_eq_false_iff_ne.mpr (fun hc => h ((files_key_inj a.1 k).mp hc))]
  have h6 : m.content.filter
      (fun p => make_form_key "content" p.1 == make_form_key "files" k) =
        [] := by
    rw [List.filter_eq_nil_iff]
    intro a _
    simp only [beq_eq_false_iff_ne.mpr (content_key_ne_files_key a.1 k)]
    exact Bool.false_ne_true
  simp [emittedPairs, mailPairs, List.filter_append, List.filter_map,
    Function.comp_def, h1, h2, h3, h4, h5, h6,
    beq_files_key_eq_false k "from" (by decide),
    beq_files_key_eq_false k "subject" (by decide),
    beq_files_key_eq_false k "html" (by decide),
    beq_files_key_eq_false k "text" (by decide),
    beq_files_key_eq_false k "fromname" (by decide),
    beq_files_key_eq_false k "replyto" (by decide),
    beq_files_key_eq_false k "date" (by decide),
    beq_files_key_eq_false k "headers" (by decide),
    beq_files_key_eq_false k "x-smtpapi" (by decide)]

theorem emitted_filter_content (m : Mail)
    (hC : (m.content.map Prod.fst).Nodup) (k v : String)
    (hkv : (k, v) ∈ m.content) :
    (emittedPairs m).filter (fun p => p.1 == make_form_key "content" k) =
      [(make_form_key "content" k, v)] := by
  have h1 : ("to[]" == make_form_key "content" k) = false :=
    beq_content_key_eq_false k "to[]" (by decide)
  have h2 : ("toname[]" == make_form_key "content" k) = false :=
    beq_content_key_eq_false k "toname[]" (by decide)
  have h3 : ("cc[]" == make_form_key "content" k) = false :=
    beq_content_key_eq_false k "cc[]" (by decide)
  have h4 : ("bcc[]" == make_form_key "content" k) = false :=
    beq_content_key_eq_false k "bcc[]" (by decide)
  have h5 : m.attachments.filter
      (fun p => make_form_key "files" p.1 == make_form_key "content" k) =
        [] := by
    rw [List.filter_eq_nil_iff]
    intro a _
    have hne : make_form_key "files" a.1 ≠ make_form_key "content" k := by
      apply files_key_ne
      rw [content_key_data]
      simp
    simp only [beq_eq_false_iff_ne.mpr hne]
    exact Bool.false_ne_true
  have h6 : m.content.filter
      (fun p => make_form_key "content" p.1 == make_form_key "content" k) =
        [(k, v)] := by
    rw [List.filter_congr (q := fun p : String × String => p.1 == k) ?_,
      filter_key_single hC k v hkv]
    intro a _
    show (make_form_key "content" a.1 == make_form_key "content" k) = (a.1 == k)
    by_cases h : a.1 = k
    · rw [h]
      simp
    · rw [beq_eq_false_iff_ne.mpr h,
        beq_eq_false_iff_ne.mpr (fun hc => h ((content_key_inj a.1 k).mp hc))]
  simp [emittedPairs, mailPairs, List.filter_append, List.filter_map,
    Function.comp_def, h1, h2, h3, h4, h5, h6,
    beq_content_key_eq_false k "from" (by decide),
    beq_content_key_eq_false k "subject" (by decide),
    beq_content_key_eq_false k "html" (by decide),
    beq_content_key_eq_false k "text" (by decide),
    beq_content_key_eq_false k "fromname" (by decide),
    beq_content_key_eq_false k "replyto" (by decide),
    beq_content_key_eq_false k "date" (by decide),
    beq_content_key_eq_false k "headers" (by decide),
    beq_content_key_eq_false k "x-smtpapi" (by decide)]

theorem emittedPairs_length (m : Mail) :
    (emittedPairs m).length =
      m.«to».length + m.to_names.length + m.cc.length + m.bcc.length +
        m.attachments.length + m.content.length + 9 := by
  simp [emittedPairs, mailPairs, List.length_append, List.length_map]
  omega

/-- C6: the emitted `to[]` pairs are exactly `to` in insertion order (so
their number is `to.length`), and likewise for `toname[]`/`cc[]`/`bcc[]`;
and, when the mapping keys are unique as the spec states, every key of the
attachments and content mappings produces exactly one emitted pair with
its bracket-constructed key and its value — no mapping key is dropped. -/
theorem claim_C6_pair_counts (m : Mail)
    (hA : (m.attachments.map Prod.fst).Nodup)
    (hC : (m.content.map Prod.fst).Nodup) :
    ((emittedPairs m).filter (fun p => p.1 == "to[]")).map Prod.snd =
        m.«to» ∧
    ((emittedPairs m).filter (fun p => p.1 == "toname[]")).map Prod.snd =
        m.to_names ∧
    ((emittedPairs m).filter (fun p => p.1 == "cc[]")).map Prod.snd =
        m.cc ∧
    ((emittedPairs m).filter (fun p => p.1 == "bcc[]")).map Prod.snd =
        m.bcc ∧
    (∀ k v, (k, v) ∈ m.attachments →
      (emittedPairs m).filter (fun p => p.1 == make_form_key "files" k) =
        [(make_form_key "files" k, v)]) ∧
    (∀ k v, (k, v) ∈ m.content →
      (emittedPairs m).filter (fun p => p.1 == make_form_key "content" k) =
        [(make_form_key "content" k, v)]) :=
  ⟨emitted_filter_to m, emitted_filter_toname m, emitted_filter_cc m,
    emitted_filter_bcc m,
    fun k v hkv => emitted_filter_files m hA k v hkv,
    fun k v hkv => emitted_filter_content m hC k v hkv⟩

/-- Mail value used to witness the pair-count claim: one recipient and one
attachment. -/
def witnessMail : Mail :=
  Mail.mk ["x@y.z"] [] [] [] "" "" "" "" "" "" ""
    [("a.txt", "DATA")] [] [] ""

/-- C6 witness: on a Mail with one recipient and one attachment, the
unique-keys hypotheses hold and the claim gives the `to[]` pair and the
single `files[a.txt]` pair. -/
theorem claim_C6_pair_counts_witness :
    (witnessMail.attachments.map Prod.fst).Nodup ∧
    ((emittedPairs witnessMail).filter
        (fun p => p.1 == "to[]")).map Prod.snd = ["x@y.z"] ∧
    (emittedPairs witnessMail).filter
        (fun p => p.1 == make_form_key "files" "a.txt") =
      [(make_form_key "files" "a.txt", "DATA")] :=
  ⟨by decide,
    (claim_C6_pair_counts witnessMail (by decide) (by decide)).1,
    (claim_C6_pair_counts witnessMail (by decide) (by decide)).2.2.2.2.1
      "a.txt" "DATA" (by decide)⟩

/-- C8 counterexample: at the all-default Mail the emitted keys are
exactly the nine scalar keys; the sequence and mapping fields (`to`,
`to_names`, `cc`, `bcc`, `attachments`, `content`) produce no form key at
all, contradicting the claim that every field, even when empty, produces a
form key with an empty value. -/
theorem claim_C8_counterexample :
    (emittedPairs Mail.new).map Prod.fst =
      ["from", "subject", "html", "text", "fromname", "replyto", "date",
        "headers", "x-smtpapi"] ∧
    ((emittedPairs Mail.new).map Prod.fst).contains "to[]" = false :=
  ⟨rfl, rfl⟩

/-- C8 (amended): every scalar field (`from`, `subject`, `html`, `text`,
`fromname`, `replyto`, `date`, `headers`, `x-smtpapi`) produces a form key
in the output even when its value is empty, while sequence and mapping
fields produce one pair per element (hence none when empty); the encoding
is total and unconditional. -/
theorem claim_C8_scalar_keys_always_present (m : Mail) :
    (∀ k ∈ (["from", "subject", "html", "text", "fromname", "replyto",
        "date", "headers", "x-smtpapi"] : List String),
      ∃ v, (k, v) ∈ emittedPairs m) ∧
    (emittedPairs m).length =
      m.«to».length + m.to_names.length + m.cc.length + m.bcc.length +
        m.attachments.length + m.content.length + 9 ∧
    ∃ s, make_post_body m = Except.ok s := by
  refine ⟨?_, emittedPairs_length m, ⟨_, make_post_body_eq m⟩⟩
  intro k hk
  fin_cases hk
  · exact ⟨m.«from», by simp [emittedPairs, mailPairs]⟩
  · exact ⟨m.subject, by simp [emittedPairs, mailPairs]⟩
  · exact ⟨m.html, by simp [emittedPairs, mailPairs]⟩
  · exact ⟨m.text, by simp [emittedPairs, mailPairs]⟩
  · exact ⟨m.from_name, by simp [emittedPairs, mailPairs]⟩
  · exact ⟨m.reply_to, by simp [emittedPairs, mailPairs]⟩
  · exact ⟨m.date, by simp [emittedPairs, mailPairs]⟩
  · exact ⟨headerJsonString m.headers, by simp [emittedPairs, mailPairs]⟩
  · exact ⟨m.x_smtpapi, by simp [emittedPairs, mailPairs]⟩

/-- C8 witness: at the empty Mail, `from` is one of the scalar keys and
appears in the emitted pairs. -/
theorem claim_C8_scalar_keys_witness :
    "from" ∈ (["from", "subject", "html", "text", "fromname", "replyto",
        "date", "headers", "x-smtpapi"] : List String) ∧
    ∃ v, ("from", v) ∈ emittedPairs Mail.new :=
  ⟨by decide,
    (claim_C8_scalar_keys_always_present Mail.new).1 "from" (by decide)⟩

/-- C10: for every Mail, the successful body splits on the `&` character
into exactly `9 + ∣to∣ + ∣to_names∣ + ∣cc∣ + ∣bcc∣ + ∣attachments∣ +
∣content∣` pieces, and each piece contains exactly one `=` character and
is non-empty (so the body never ends with a separator and has at least
nine pieces). -/
theorem claim_C10_split_structure (m : Mail) (s : String)
    (h : make_post_body m = Except.ok s) :
    (splitAmp s.data).length =
      9 + m.«to».length + m.to_names.length + m.cc.length + m.bcc.length +
        m.attachments.length + m.content.length ∧
    ∀ piece ∈ splitAmp s.data, piece.count '=' = 1 ∧ piece ≠ [] := by
  have he := make_post_body_eq m
  rw [h] at he
  have hs : s = joinAmp ((emittedPairs m).map encodePair) := by
    cases he
    rfl
  subst hs
  have hsplit : splitAmp (joinAmp ((emittedPairs m).map encodePair)).data =
      (emittedPairs m).map (String.data ∘ encodePair) := by
    rw [data_joinAmp, List.map_map]
    apply splitAmp_listJoinAmp
    · simp [emittedPairs, mailPairs]
    · intro p hp
      simp only [List.mem_map] at hp
      obtain ⟨q, _, rfl⟩ := hp
      exact amp_not_mem_encodePair_data q
  rw [hsplit]
  constructor
  · simp only [List.length_map, emittedPairs_length m]
    omega
  · intro piece hp
    simp only [List.mem_map] at hp
    obtain ⟨q, _, rfl⟩ := hp
    refine ⟨count_eq_encodePair_data q, ?_⟩
    intro hnil
    have hc := count_eq_encodePair_data q
    rw [show (String.data ∘ encodePair) q = (encodePair q).data from rfl] at hnil
    rw [hnil] at hc
    simp at hc

/-- C10 witness: at the empty Mail the body splits into nine pieces. -/
theorem claim_C10_split_structure_witness :
    make_post_body Mail.new =
      Except.ok "from=&subject=&html=&text=&fromname=&replyto=&date=&headers=%7B%7D&x-smtpapi=" ∧
    (splitAmp ("from=&subject=&html=&text=&fromname=&replyto=&date=&headers=%7B%7D&x-smtpapi=" : String).data).length =
      9 + 0 + 0 + 0 + 0 + 0 + 0 :=
  ⟨rfl, (claim_C10_split_structure Mail.new _ rfl).1⟩
